import Mathlib

/-!
Shallow embedding of the Life Engine from `src/main.rs` (Conway's Game of
Life on a terminal).  Rust `u16` coordinates become `Nat`; the only `u16`
operation whose wrapping behaviour is observable is the `height - 1`
subtraction in `Game::new` and `Game::resize_board`, which is modelled
exactly (two's-complement wrap of release builds).  The `HashSet<Cell>`
becomes a `Finset Cell`: insertion during iteration is order-independent,
so the loop in `Game::next` is embedded as the set it constructs.  The
`u32` generation counter is a `Nat` whose increment wraps at `2^32`, as the
release-build `self.generation += 1` does (a debug build panics there).
-/

/-- Rust: `type Cell = (u16, u16);` -/
abbrev Cell : Type := Nat × Nat

/-- Rust: `struct BoardShape { width: u16, height: u16 }` -/
structure BoardShape where
  width : Nat
  height : Nat
deriving DecidableEq

/-- Rust: `struct Game { cells: HashSet<Cell>, board_shape: BoardShape, generation: u32 }` -/
structure Game where
  cells : Finset Cell
  board_shape : BoardShape
  generation : Nat

/-- Wrapping `u16` subtraction of 1, as performed by `height - 1` in
`Game::new` and `Game::resize_board` (release-build semantics; a debug
build panics when `height = 0`). -/
def u16_sub_one (h : Nat) : Nat := (h + 65535) % 65536

/-- Wrapping `u32` increment, as performed by `self.generation += 1` in
`Game::next` (release-build semantics; a debug build panics at
`u32::MAX = 4294967295`). -/
def u32_add_one (n : Nat) : Nat := (n + 1) % 4294967296

/-- Rust `Game::new(width, height)`: empty cell set, shape
`(width, height - 1)` (one terminal row is reserved for the status line),
generation 0. -/
def Game.new (width height : Nat) : Game :=
  { cells := ∅
    board_shape := { width := width, height := u16_sub_one height }
    generation := 0 }

/-- Rust `Game::resize_board(width, height)`: replaces the board shape with
`(width, height - 1)`; cells and generation are untouched. -/
def Game.resize_board (g : Game) (width height : Nat) : Game :=
  { g with board_shape := { width := width, height := u16_sub_one height } }

/-- Rust `Game::seed`: for every `(i, j)` with `i < width`, `j < height`,
inserts `(i, j)` when the random draw succeeds.  The randomness is
abstracted as a boolean oracle `r` giving the outcome of
`rand::random::<f32>() < 0.2` at each cell. -/
def Game.seed (g : Game) (r : Cell → Bool) : Game :=
  { g with
      cells := g.cells ∪
        ((Finset.range g.board_shape.width ×ˢ Finset.range g.board_shape.height).filter
          (fun c => r c = true)) }

/-- Rust `Game::cell_neighbors`: the row range is `i-1..=i+1` when `i > 0`
and `i..=i+1` otherwise (same for columns), and a candidate `(i, j)` is
pushed when `i < width && j < height && (i, j) != *cell`.  The inclusive
ranges are written as explicit lists. -/
def Game.cell_neighbors (g : Game) (cell : Cell) : List Cell :=
  (if 0 < cell.1 then [cell.1 - 1, cell.1, cell.1 + 1] else [cell.1, cell.1 + 1]).flatMap
    (fun i =>
      (if 0 < cell.2 then [cell.2 - 1, cell.2, cell.2 + 1] else [cell.2, cell.2 + 1]).filterMap
        (fun j =>
          if i < g.board_shape.width ∧ j < g.board_shape.height ∧ (i, j) ≠ cell
          then some (i, j) else none))

/-- The live-neighbor count used in `Game::next`:
`neighbors.iter().filter(|cell| self.cells.contains(cell)).count()`
(the fold in the birth branch computes the same number). -/
def Game.alive_neighbors (g : Game) (cell : Cell) : Nat :=
  ((g.cell_neighbors cell).filter (fun c => decide (c ∈ g.cells))).length

/-- Rust `Game::next`: a live cell is kept when its live-neighbor count is
2 or 3; a dead neighbor of a live cell is inserted when its live-neighbor
count is exactly 3.  All counts are taken against the old `cells` set;
`next_generation` replaces `cells` wholesale and the `u32` generation
counter is incremented (wrapping at `2^32`). -/
def Game.next (g : Game) : Game :=
  { cells :=
      g.cells.filter (fun c => g.alive_neighbors c = 2 ∨ g.alive_neighbors c = 3) ∪
        g.cells.biUnion (fun c =>
          ((g.cell_neighbors c).filter
            (fun d => decide (d ∉ g.cells ∧ g.alive_neighbors d = 3))).toFinset)
    board_shape := g.board_shape
    generation := u32_add_one g.generation }

/-- The population reported by the status line in `Game::display`:
`self.cells.len()`. -/
def Game.population (g : Game) : Nat := g.cells.card

/-- Engine states reachable through the public operations, with `u16`-ranged
arguments (the terminal sizes fed to `new` and `resize_board`). -/
inductive Reachable : Game → Prop where
  | new : ∀ w h, w ≤ 65535 → h ≤ 65535 → Reachable (Game.new w h)
  | seed : ∀ g r, Reachable g → Reachable (g.seed r)
  | next : ∀ g, Reachable g → Reachable g.next
  | resize : ∀ g w h, Reachable g → w ≤ 65535 → h ≤ 65535 →
      Reachable (g.resize_board w h)

/-- Membership characterisation of `Game.cell_neighbors`: exactly the cells
inside the board bounds that differ from `c` and are within distance 1 of it
in each axis. -/
lemma Game.mem_cell_neighbors (g : Game) (c e : Cell) :
    e ∈ g.cell_neighbors c ↔
      e.1 < g.board_shape.width ∧ e.2 < g.board_shape.height ∧ e ≠ c ∧
      c.1 ≤ e.1 + 1 ∧ e.1 ≤ c.1 + 1 ∧ c.2 ≤ e.2 + 1 ∧ e.2 ≤ c.2 + 1 := by
  obtain ⟨i, j⟩ := c
  obtain ⟨a, b⟩ := e
  simp only [Game.cell_neighbors, List.mem_flatMap, List.mem_filterMap,
    Option.ite_none_right_eq_some, Option.some.injEq, Prod.mk.injEq]
  constructor
  · rintro ⟨i', hi', j', hj', ⟨hw, hh, hne⟩, rfl, rfl⟩
    split_ifs at hi' hj' <;> simp only [List.mem_cons, List.not_mem_nil, or_false] at hi' hj' <;>
      refine ⟨hw, hh, hne, ?_, ?_, ?_, ?_⟩ <;> omega
  · rintro ⟨hw, hh, hne, h1, h2, h3, h4⟩
    refine ⟨a, ?_, b, ?_, ⟨hw, hh, hne⟩, rfl, rfl⟩ <;>
      split_ifs <;> simp only [List.mem_cons, List.not_mem_nil, or_false] <;> omega

/-- The neighbor list produced by `Game.cell_neighbors` has no duplicates. -/
lemma Game.nodup_cell_neighbors (g : Game) (c : Cell) : (g.cell_neighbors c).Nodup := by
  have key : ∀ (l : List Nat) (i : Nat) (x : Cell),
      x ∈ l.filterMap (fun j =>
        if i < g.board_shape.width ∧ j < g.board_shape.height ∧ (i, j) ≠ c
        then some (i, j) else none) → x.1 = i := by
    intro l i x hx
    obtain ⟨j, _, hx⟩ := List.mem_filterMap.mp hx
    simp only [Option.ite_none_right_eq_some, Option.some.injEq] at hx
    obtain ⟨-, rfl⟩ := hx
    rfl
  unfold Game.cell_neighbors
  refine List.nodup_flatMap.mpr ⟨?_, ?_⟩
  · intro i _
    refine List.Nodup.filterMap ?_ ?_
    · intro a a' b hb hb'
      simp only [Option.mem_def, Option.ite_none_right_eq_some, Option.some.injEq] at hb hb'
      obtain ⟨-, rfl⟩ := hb
      obtain ⟨-, hb'⟩ := hb'
      injection hb' with h1 h2
      exact h2.symm
    · split_ifs <;> (simp; try omega)
  · have hpw : (if 0 < c.1 then [c.1 - 1, c.1, c.1 + 1] else [c.1, c.1 + 1]).Pairwise
        (fun a a' => a ≠ a') := by
      split_ifs with h <;> (simp; try omega)
    refine hpw.imp ?_
    intro a a' hne x hx hx'
    exact hne ((key _ a x hx) ▸ key _ a' x hx')

/-- Pure adjacency between cells (no board-bounds condition): the form the
neighbor relation takes once both cells are known to be in bounds. -/
def adjacent (d e : Cell) : Prop :=
  e ≠ d ∧ d.1 ≤ e.1 + 1 ∧ e.1 ≤ d.1 + 1 ∧ d.2 ≤ e.2 + 1 ∧ e.2 ≤ d.2 + 1

instance (d e : Cell) : Decidable (adjacent d e) := by
  unfold adjacent
  infer_instance

/-- When every live cell is inside the board bounds, the live-neighbor count
of any cell `d` is the number of live cells adjacent to `d`. -/
lemma Game.alive_neighbors_eq_card (g : Game) (d : Cell)
    (hb : ∀ e ∈ g.cells, e.1 < g.board_shape.width ∧ e.2 < g.board_shape.height) :
    g.alive_neighbors d = (g.cells.filter (fun e => adjacent d e)).card := by
  have hset : ((g.cell_neighbors d).filter (fun c => decide (c ∈ g.cells))).toFinset
      = g.cells.filter (fun e => adjacent d e) := by
    ext e
    simp only [List.mem_toFinset, List.mem_filter, decide_eq_true_eq, Finset.mem_filter,
      Game.mem_cell_neighbors, adjacent]
    constructor
    · rintro ⟨⟨_, _, hne, h1, h2, h3, h4⟩, hmem⟩
      exact ⟨hmem, hne, h1, h2, h3, h4⟩
    · rintro ⟨hmem, hne, h1, h2, h3, h4⟩
      exact ⟨⟨(hb e hmem).1, (hb e hmem).2, hne, h1, h2, h3, h4⟩, hmem⟩
  unfold Game.alive_neighbors
  rw [← List.toFinset_card_of_nodup ((g.nodup_cell_neighbors d).filter _), hset]

/-- Membership characterisation of the next generation: survivors are live
cells with 2 or 3 live neighbors; births are dead neighbors of live cells
with exactly 3 live neighbors. -/
lemma Game.mem_next (g : Game) (d : Cell) :
    d ∈ g.next.cells ↔
      (d ∈ g.cells ∧ (g.alive_neighbors d = 2 ∨ g.alive_neighbors d = 3)) ∨
      (d ∉ g.cells ∧ g.alive_neighbors d = 3 ∧ ∃ c ∈ g.cells, d ∈ g.cell_neighbors c) := by
  simp only [Game.next, Finset.mem_union, Finset.mem_filter, Finset.mem_biUnion,
    List.mem_toFinset, List.mem_filter, decide_eq_true_eq]
  constructor
  · rintro (⟨h1, h2⟩ | ⟨c, hc, hd, hdead, h3⟩)
    · exact Or.inl ⟨h1, h2⟩
    · exact Or.inr ⟨hdead, h3, c, hc, hd⟩
  · rintro (⟨h1, h2⟩ | ⟨hdead, h3, c, hc, hd⟩)
    · exact Or.inl ⟨h1, h2⟩
    · exact Or.inr ⟨c, hc, hd, hdead, h3⟩

/-- A 3-cell blinker row on a 4-by-4 board, used as a concrete test state. -/
def blinkerRow : Game :=
  { cells := {(1, 0), (1, 1), (1, 2)}, board_shape := ⟨4, 4⟩, generation := 0 }

/-- A 1-wide board whose three live cells give the out-of-bounds dead cell
`(1, 1)` exactly 3 live neighbors. -/
def clippedGame : Game :=
  { cells := {(0, 0), (0, 1), (0, 2)}, board_shape := ⟨1, 3⟩, generation := 0 }

/-- C1: for every board state, a currently-live cell is in the live-cell set
after `advance()` iff its live-neighbor count (the `neighbors` operation
intersected with the live-cell set) is exactly 2 or 3. -/
theorem c1_live_cell_survival (g : Game) (c : Cell) (hc : c ∈ g.cells) :
    c ∈ g.next.cells ↔ (g.alive_neighbors c = 2 ∨ g.alive_neighbors c = 3) := by
  rw [Game.mem_next]
  constructor
  · rintro (⟨-, h⟩ | ⟨hdead, -, -⟩)
    · exact h
    · exact absurd hc hdead
  · intro h
    exact Or.inl ⟨hc, h⟩

/-- Witness for C1 at the blinker row: the center cell has 2 live neighbors. -/
theorem c1_live_cell_survival_witness :
    ((1, 1) : Cell) ∈ blinkerRow.cells ∧
      (((1, 1) : Cell) ∈ blinkerRow.next.cells ↔
        (blinkerRow.alive_neighbors (1, 1) = 2 ∨ blinkerRow.alive_neighbors (1, 1) = 3)) :=
  ⟨by decide, c1_live_cell_survival blinkerRow (1, 1) (by decide)⟩

/-- C2 counterexample: on a width-1 board the dead cell `(1, 1)` lies outside
the bounds, has exactly 3 live neighbors, and yet is not born. -/
theorem c2_counterexample :
    ((1, 1) : Cell) ∉ clippedGame.cells ∧ clippedGame.alive_neighbors (1, 1) = 3 ∧
      ((1, 1) : Cell) ∉ clippedGame.next.cells := by decide

/-- C2 (amended): a currently-dead cell inside the stored board bounds is in
the new live-cell set iff it has exactly 3 live neighbors; a dead cell at or
beyond a bound is never born. -/
theorem c2_dead_cell_birth (g : Game) (d : Cell) (hdead : d ∉ g.cells) :
    (d.1 < g.board_shape.width → d.2 < g.board_shape.height →
      (d ∈ g.next.cells ↔ g.alive_neighbors d = 3)) ∧
    (g.board_shape.width ≤ d.1 ∨ g.board_shape.height ≤ d.2 → d ∉ g.next.cells) := by
  constructor
  · intro hw hh
    rw [Game.mem_next]
    constructor
    · rintro (⟨hlive, -⟩ | ⟨-, h3, -⟩)
      · exact absurd hlive hdead
      · exact h3
    · intro h3
      refine Or.inr ⟨hdead, h3, ?_⟩
      have hpos : 0 < ((g.cell_neighbors d).filter (fun c => decide (c ∈ g.cells))).length := by
        unfold Game.alive_neighbors at h3
        omega
      obtain ⟨e, he⟩ := List.exists_mem_of_length_pos hpos
      obtain ⟨hed, hec⟩ := List.mem_filter.mp he
      rw [decide_eq_true_eq] at hec
      refine ⟨e, hec, ?_⟩
      obtain ⟨hew, heh, hene, h1, h2, h3, h4⟩ := (Game.mem_cell_neighbors g d e).mp hed
      exact (Game.mem_cell_neighbors g e d).mpr ⟨hw, hh, Ne.symm hene, h2, h1, h4, h3⟩
  · intro hout hnext
    rcases (Game.mem_next g d).mp hnext with ⟨hlive, -⟩ | ⟨-, -, c, -, hdmem⟩
    · exact hdead hlive
    · have := (Game.mem_cell_neighbors g c d).mp hdmem
      omega

/-- Witness for C2 at the blinker row: the in-bounds dead cell `(0, 1)` has
3 live neighbors and is born. -/
theorem c2_dead_cell_birth_witness :
    ((((0, 1) : Cell).1 < blinkerRow.board_shape.width →
        ((0, 1) : Cell).2 < blinkerRow.board_shape.height →
        (((0, 1) : Cell) ∈ blinkerRow.next.cells ↔ blinkerRow.alive_neighbors (0, 1) = 3)) ∧
      (blinkerRow.board_shape.width ≤ ((0, 1) : Cell).1 ∨
          blinkerRow.board_shape.height ≤ ((0, 1) : Cell).2 →
        ((0, 1) : Cell) ∉ blinkerRow.next.cells)) :=
  c2_dead_cell_birth blinkerRow (0, 1) (by decide)

/-- C3 counterexample: `new(5, 3)` stores height 2, not the given height 3
(one row is reserved for the status line). -/
theorem c3_counterexample : (Game.new 5 3).board_shape.height ≠ 3 := by decide

/-- C3 (amended): `initialize(shape)` gives an empty live-cell set,
generation 0 and stored width equal to the given width, but the stored
height is the given height minus 1; at height 0 the `u16` subtraction wraps
to 65535 (release builds; debug builds panic). -/
theorem c3_new_game (w h : Nat) :
    (Game.new w h).cells = ∅ ∧ (Game.new w h).generation = 0 ∧
    (Game.new w h).board_shape.width = w ∧
    (1 ≤ h → h ≤ 65535 → (Game.new w h).board_shape.height = h - 1) ∧
    (Game.new w 0).board_shape.height = 65535 := by
  refine ⟨rfl, rfl, rfl, ?_, rfl⟩
  intro h1 h2
  simp only [Game.new, u16_sub_one]
  omega

/-- Witness for C3 at `new(5, 3)`: the stored height is 2. -/
theorem c3_new_game_witness : (Game.new 5 3).board_shape.height = 2 :=
  (c3_new_game 5 3).2.2.2.1 (by decide) (by decide)

/-- C4 counterexample: resizing to `(5, 3)` stores height 2, not the given
height 3. -/
theorem c4_counterexample : (blinkerRow.resize_board 5 3).board_shape.height ≠ 3 := by decide

/-- C4 (amended): `resize(new_shape)` leaves the live-cell set and the
generation untouched (no eviction of out-of-range cells) and stores the
given width, but the stored height is the given height minus 1 (wrapping to
65535 at height 0). -/
theorem c4_resize (g : Game) (w h : Nat) :
    (g.resize_board w h).cells = g.cells ∧
    (g.resize_board w h).generation = g.generation ∧
    (g.resize_board w h).board_shape.width = w ∧
    (1 ≤ h → h ≤ 65535 → (g.resize_board w h).board_shape.height = h - 1) ∧
    (g.resize_board w 0).board_shape.height = 65535 := by
  refine ⟨rfl, rfl, rfl, ?_, rfl⟩
  intro h1 h2
  simp only [Game.resize_board, u16_sub_one]
  omega

/-- Witness for C4: resizing the blinker board to `(7, 3)` stores height 2. -/
theorem c4_resize_witness : (blinkerRow.resize_board 7 3).board_shape.height = 2 :=
  (c4_resize blinkerRow 7 3).2.2.2.1 (by decide) (by decide)

/-- C7: on a board of width and height at least 2, the neighbors of the
origin are exactly `(0,1), (1,0), (1,1)` (in push order), and a produced
neighbor coordinate is never negative. -/
theorem c7_neighbors_origin (g : Game) (hw : 2 ≤ g.board_shape.width)
    (hh : 2 ≤ g.board_shape.height) :
    g.cell_neighbors (0, 0) = [(0, 1), (1, 0), (1, 1)] ∧
    ∀ (c e : Cell), e ∈ g.cell_neighbors c → (0 : Int) ≤ e.1 ∧ (0 : Int) ≤ e.2 := by
  constructor
  · have h0w : 0 < g.board_shape.width := by omega
    have h1w : 1 < g.board_shape.width := by omega
    have h0h : 0 < g.board_shape.height := by omega
    have h1h : 1 < g.board_shape.height := by omega
    simp [Game.cell_neighbors, h0w, h1w, h0h, h1h]
  · intro c e _
    exact ⟨Int.natCast_nonneg e.1, Int.natCast_nonneg e.2⟩

/-- Witness for C7 on the 4-by-4 blinker board. -/
theorem c7_neighbors_origin_witness :
    (blinkerRow.cell_neighbors (0, 0) = [(0, 1), (1, 0), (1, 1)] ∧
      ∀ (c e : Cell), e ∈ blinkerRow.cell_neighbors c → (0 : Int) ≤ e.1 ∧ (0 : Int) ≤ e.2) :=
  c7_neighbors_origin blinkerRow (by decide) (by decide)

/-- A state whose `u32` generation counter sits at `u32::MAX`. -/
def wrapGame : Game :=
  { cells := ∅, board_shape := ⟨4, 4⟩, generation := 4294967295 }

/-- C8 counterexample: at generation `u32::MAX = 4294967295` an `advance()`
does not increase the counter by 1 — the `u32` increment wraps to 0. -/
theorem c8_counterexample : wrapGame.next.generation ≠ wrapGame.generation + 1 := by
  decide

/-- C8 (amended): while the counter is below `u32::MAX`, each `advance()`
increases it by exactly 1 regardless of population; at `u32::MAX` the
increment wraps to 0 (release builds; debug builds panic).  `population()`
always equals the size of the live-cell set. -/
theorem c8_generation_population (g : Game) :
    (g.generation < 4294967295 → g.next.generation = g.generation + 1) ∧
    (g.generation = 4294967295 → g.next.generation = 0) ∧
    g.population = g.cells.card := by
  refine ⟨?_, ?_, rfl⟩
  · intro h
    simp only [Game.next, u32_add_one]
    omega
  · intro h
    simp only [Game.next, u32_add_one, h]

/-- Witness for C8: generation 0 increments to 1 on the blinker board, and
a counter at `u32::MAX` wraps to 0. -/
theorem c8_generation_population_witness :
    blinkerRow.next.generation = blinkerRow.generation + 1 ∧
      wrapGame.next.generation = 0 :=
  ⟨(c8_generation_population blinkerRow).1 (by decide),
    (c8_generation_population wrapGame).2.1 (by decide)⟩

/-- C9: `seed` only inserts coordinates inside the stored board rectangle,
so after `initialize` followed by `seed` every live cell is in bounds. -/
theorem c9_seed_in_bounds (g : Game) (w h : Nat) (r : Cell → Bool) (c : Cell) :
    (c ∈ (g.seed r).cells →
      c ∈ g.cells ∨ (c.1 < g.board_shape.width ∧ c.2 < g.board_shape.height)) ∧
    (c ∈ ((Game.new w h).seed r).cells →
      c.1 < ((Game.new w h).seed r).board_shape.width ∧
        c.2 < ((Game.new w h).seed r).board_shape.height) := by
  have hmem : ∀ (g' : Game), c ∈ (g'.seed r).cells →
      c ∈ g'.cells ∨ (c.1 < g'.board_shape.width ∧ c.2 < g'.board_shape.height) := by
    intro g' hc
    rcases Finset.mem_union.mp hc with h1 | h2
    · exact Or.inl h1
    · obtain ⟨hp, -⟩ := Finset.mem_filter.mp h2
      have hpr := Finset.mem_product.mp hp
      exact Or.inr ⟨Finset.mem_range.mp hpr.1, Finset.mem_range.mp hpr.2⟩
  refine ⟨hmem g, ?_⟩
  intro hc
  rcases hmem (Game.new w h) hc with h1 | h2
  · exact absurd h1 (Finset.not_mem_empty c)
  · exact h2

/-- Witness for C9: a fully-seeded fresh 3-by-4 board contains `(0, 0)`,
which lies inside the stored bounds. -/
theorem c9_seed_in_bounds_witness :
    ((0, 0) : Cell).1 < ((Game.new 3 4).seed (fun _ => true)).board_shape.width ∧
      ((0, 0) : Cell).2 < ((Game.new 3 4).seed (fun _ => true)).board_shape.height :=
  (c9_seed_in_bounds (Game.new 3 4) 3 4 (fun _ => true) (0, 0)).2 (by decide)

/-- C10: every cell newly born by `advance()` (in the next generation but
not in the previous one) lies strictly inside the stored board bounds. -/
theorem c10_births_in_bounds (g : Game) (d : Cell) (hnext : d ∈ g.next.cells)
    (hdead : d ∉ g.cells) :
    d.1 < g.board_shape.width ∧ d.2 < g.board_shape.height := by
  rcases (Game.mem_next g d).mp hnext with ⟨hlive, -⟩ | ⟨-, -, c, -, hd⟩
  · exact absurd hlive hdead
  · have h := (Game.mem_cell_neighbors g c d).mp hd
    exact ⟨h.1, h.2.1⟩

/-- Witness for C10: `(0, 1)` is born from the blinker row and is inside
the 4-by-4 bounds. -/
theorem c10_births_in_bounds_witness :
    ((0, 1) : Cell).1 < blinkerRow.board_shape.width ∧
      ((0, 1) : Cell).2 < blinkerRow.board_shape.height :=
  c10_births_in_bounds blinkerRow (0, 1) (by decide) (by decide)

/-- Every reachable state has a `u16`-ranged board shape, and every live
cell coordinate is strictly below 65535 (so the `+ 1` range arithmetic in
`cell_neighbors` cannot overflow `u16`). -/
lemma reachable_bounds {g : Game} (hg : Reachable g) :
    g.board_shape.width ≤ 65535 ∧ g.board_shape.height ≤ 65535 ∧
      ∀ c ∈ g.cells, c.1 < 65535 ∧ c.2 < 65535 := by
  induction hg with
  | new w h hw hh =>
      refine ⟨hw, ?_, ?_⟩
      · simp only [Game.new, u16_sub_one]
        omega
      · intro c hc
        exact absurd hc (Finset.not_mem_empty c)
  | seed g r hg ih =>
      obtain ⟨ihw, ihh, ihc⟩ := ih
      refine ⟨ihw, ihh, ?_⟩
      intro c hc
      rcases Finset.mem_union.mp hc with h1 | h2
      · exact ihc c h1
      · obtain ⟨hp, -⟩ := Finset.mem_filter.mp h2
        have hpr := Finset.mem_product.mp hp
        have := Finset.mem_range.mp hpr.1
        have := Finset.mem_range.mp hpr.2
        omega
  | next g hg ih =>
      obtain ⟨ihw, ihh, ihc⟩ := ih
      refine ⟨ihw, ihh, ?_⟩
      intro c hc
      rcases (Game.mem_next g c).mp hc with ⟨hlive, -⟩ | ⟨-, -, e, -, hd⟩
      · exact ihc c hlive
      · have := (Game.mem_cell_neighbors g e c).mp hd
        omega
  | resize g w h hg hw hh ih =>
      obtain ⟨-, -, ihc⟩ := ih
      refine ⟨hw, ?_, ihc⟩
      simp only [Game.resize_board, u16_sub_one]
      omega

/-- The `u16` additions performed while `Game::next` runs: the `i + 1` and
`j + 1` range bounds of `cell_neighbors`, evaluated at every live cell and
at every (in-bounds) neighbor of a live cell.  The decrements `i - 1`,
`j - 1` are guarded by `> 0` and cannot underflow. -/
def Game.advance_arith_safe (g : Game) : Prop :=
  ∀ c ∈ g.cells, (c.1 + 1 ≤ 65535 ∧ c.2 + 1 ≤ 65535) ∧
    ∀ d ∈ g.cell_neighbors c, d.1 + 1 ≤ 65535 ∧ d.2 + 1 ≤ 65535

/-- C5: on every reachable state — including states where a resize has left
live cells outside the board — the arithmetic `advance()` performs stays
inside `u16`, so the (total) transition function never panics. -/
theorem c5_advance_total (g : Game) (hg : Reachable g) : g.advance_arith_safe := by
  obtain ⟨hw, hh, hc⟩ := reachable_bounds hg
  intro c hcm
  have h1 := hc c hcm
  refine ⟨⟨by omega, by omega⟩, ?_⟩
  intro d hd
  have h2 := (Game.mem_cell_neighbors g c d).mp hd
  omega

/-- Witness for C5: a freshly seeded 4-by-5 board is reachable and its
advance arithmetic is in range. -/
theorem c5_advance_total_witness :
    ((Game.new 4 5).seed (fun _ => true)).advance_arith_safe :=
  c5_advance_total _
    (Reachable.seed _ _ (Reachable.new 4 5 (by decide) (by decide)))

/-- One `advance()` turns the blinker row into the blinker column on any
board of width and height at least 4. -/
lemma blinker_step_row (g : Game) (hw : 4 ≤ g.board_shape.width)
    (hh : 4 ≤ g.board_shape.height) (hc : g.cells = {(1, 0), (1, 1), (1, 2)}) :
    g.next.cells = {(0, 1), (1, 1), (2, 1)} := by
  have h0w : 0 < g.board_shape.width := by omega
  have h1h : 1 < g.board_shape.height := by omega
  have h2w : 2 < g.board_shape.width := by omega
  have hb : ∀ e ∈ g.cells, e.1 < g.board_shape.width ∧ e.2 < g.board_shape.height := by
    intro e he
    rw [hc] at he
    simp only [Finset.mem_insert, Finset.mem_singleton] at he
    rcases he with rfl | rfl | rfl <;> exact ⟨by omega, by omega⟩
  have hcount : ∀ d : Cell, g.alive_neighbors d =
      (({(1, 0), (1, 1), (1, 2)} : Finset Cell).filter (fun e => adjacent d e)).card := by
    intro d
    rw [g.alive_neighbors_eq_card d hb, hc]
  ext d
  rw [Game.mem_next, hc]
  constructor
  · rintro (⟨hin, h23⟩ | ⟨hout, h3, c, hcmem, hnb⟩)
    · simp only [Finset.mem_insert, Finset.mem_singleton] at hin
      rcases hin with rfl | rfl | rfl
      · rw [hcount] at h23
        revert h23
        decide
      · decide
      · rw [hcount] at h23
        revert h23
        decide
    · simp only [Finset.mem_insert, Finset.mem_singleton] at hcmem
      obtain ⟨a, b⟩ := d
      have hcb := (Game.mem_cell_neighbors g c (a, b)).mp hnb
      have hab : a ≤ 2 ∧ b ≤ 3 := by
        rcases hcmem with rfl | rfl | rfl <;> simp at hcb <;> omega
      obtain ⟨ha, hb2⟩ := hab
      interval_cases a <;> interval_cases b <;> rw [hcount] at h3 <;>
        revert h3 <;> revert hout <;> decide
  · intro hd
    simp only [Finset.mem_insert, Finset.mem_singleton] at hd
    rcases hd with rfl | rfl | rfl
    · refine Or.inr ⟨by decide, by rw [hcount]; decide, ⟨(1, 1), by decide, ?_⟩⟩
      exact (Game.mem_cell_neighbors g (1, 1) (0, 1)).mpr
        ⟨h0w, h1h, by decide, by decide, by decide, by decide, by decide⟩
    · exact Or.inl ⟨by decide, by rw [hcount]; decide⟩
    · refine Or.inr ⟨by decide, by rw [hcount]; decide, ⟨(1, 1), by decide, ?_⟩⟩
      exact (Game.mem_cell_neighbors g (1, 1) (2, 1)).mpr
        ⟨h2w, h1h, by decide, by decide, by decide, by decide, by decide⟩

/-- One `advance()` turns the blinker column back into the blinker row on
any board of width and height at least 4. -/
lemma blinker_step_col (g : Game) (hw : 4 ≤ g.board_shape.width)
    (hh : 4 ≤ g.board_shape.height) (hc : g.cells = {(0, 1), (1, 1), (2, 1)}) :
    g.next.cells = {(1, 0), (1, 1), (1, 2)} := by
  have h1w : 1 < g.board_shape.width := by omega
  have h0h : 0 < g.board_shape.height := by omega
  have h2h : 2 < g.board_shape.height := by omega
  have hb : ∀ e ∈ g.cells, e.1 < g.board_shape.width ∧ e.2 < g.board_shape.height := by
    intro e he
    rw [hc] at he
    simp only [Finset.mem_insert, Finset.mem_singleton] at he
    rcases he with rfl | rfl | rfl <;> exact ⟨by omega, by omega⟩
  have hcount : ∀ d : Cell, g.alive_neighbors d =
      (({(0, 1), (1, 1), (2, 1)} : Finset Cell).filter (fun e => adjacent d e)).card := by
    intro d
    rw [g.alive_neighbors_eq_card d hb, hc]
  ext d
  rw [Game.mem_next, hc]
  constructor
  · rintro (⟨hin, h23⟩ | ⟨hout, h3, c, hcmem, hnb⟩)
    · simp only [Finset.mem_insert, Finset.mem_singleton] at hin
      rcases hin with rfl | rfl | rfl
      · rw [hcount] at h23
        revert h23
        decide
      · decide
      · rw [hcount] at h23
        revert h23
        decide
    · simp only [Finset.mem_insert, Finset.mem_singleton] at hcmem
      obtain ⟨a, b⟩ := d
      have hcb := (Game.mem_cell_neighbors g c (a, b)).mp hnb
      have hab : a ≤ 3 ∧ b ≤ 2 := by
        rcases hcmem with rfl | rfl | rfl <;> simp at hcb <;> omega
      obtain ⟨ha, hb2⟩ := hab
      interval_cases a <;> interval_cases b <;> rw [hcount] at h3 <;>
        revert h3 <;> revert hout <;> decide
  · intro hd
    simp only [Finset.mem_insert, Finset.mem_singleton] at hd
    rcases hd with rfl | rfl | rfl
    · refine Or.inr ⟨by decide, by rw [hcount]; decide, ⟨(1, 1), by decide, ?_⟩⟩
      exact (Game.mem_cell_neighbors g (1, 1) (1, 0)).mpr
        ⟨h1w, h0h, by decide, by decide, by decide, by decide, by decide⟩
    · exact Or.inl ⟨by decide, by rw [hcount]; decide⟩
    · refine Or.inr ⟨by decide, by rw [hcount]; decide, ⟨(1, 1), by decide, ?_⟩⟩
      exact (Game.mem_cell_neighbors g (1, 1) (1, 2)).mpr
        ⟨h1w, h2h, by decide, by decide, by decide, by decide, by decide⟩

/-- C6: on a board of width and height at least 4, the blinker row
`{(1,0),(1,1),(1,2)}` becomes the column `{(0,1),(1,1),(2,1)}` after one
`advance()` and returns to the row after a second `advance()`. -/
theorem c6_blinker (g : Game) (hw : 4 ≤ g.board_shape.width)
    (hh : 4 ≤ g.board_shape.height) (hc : g.cells = {(1, 0), (1, 1), (1, 2)}) :
    g.next.cells = {(0, 1), (1, 1), (2, 1)} ∧
      g.next.next.cells = {(1, 0), (1, 1), (1, 2)} := by
  have h1 := blinker_step_row g hw hh hc
  exact ⟨h1, blinker_step_col g.next hw hh h1⟩

/-- Witness for C6 on the concrete 4-by-4 board. -/
theorem c6_blinker_witness :
    blinkerRow.next.cells = {(0, 1), (1, 1), (2, 1)} ∧
      blinkerRow.next.next.cells = {(1, 0), (1, 1), (1, 2)} :=
  c6_blinker blinkerRow (by decide) (by decide) (by decide)
